import Mathlib

/-!
# Verification of the PR-curves plugin
  (`tensorboard/plugins/pr_curve/pr_curves_plugin.py`)

Shallow embedding of the plugin's data model and operations.

Modelling conventions:
* numpy/Python floating values are modelled exactly: a scalar cell of the
  precision/recall rows is a `PyFloat` (either NaN or an exact rational);
  the four count rows (TP/FP/TN/FN) are modelled as exact rationals `ℚ`,
  following the data-model invariant that counts are finite non-negative
  numbers that round to integers.  Python `int(v)` / numpy `astype(int)`
  truncate toward zero, modelled by `ratTrunc`.
* The external multiplexer (time-series store) is an injected capability,
  modelled by the `Multiplexer` structure; `Tensors(run, tag)` raising
  `KeyError` is modelled by an `Option` result.
* Python dicts are modelled as association lists in insertion order, with
  `dictInsert` giving the overwrite-on-existing-key update semantics.
-/

/-- A Python/numpy floating-point cell: either NaN or an exact numeric
value (modelled as a rational). -/
inductive PyFloat where
  | nan : PyFloat
  | val : ℚ → PyFloat
deriving DecidableEq, Repr

/-- Python `int(v)` / numpy `.astype(int)` on a finite float: truncation
toward zero (`Int.tdiv` is t-division). -/
def ratTrunc (q : ℚ) : ℤ :=
  q.num.tdiv (q.den : ℤ)

/-- A decoded PR-curve tensor for one step: a 6-row matrix.  Modelled from
the spec: the row indices `metadata.TRUE_POSITIVES_INDEX = 0`,
`FALSE_POSITIVES_INDEX = 1`, `TRUE_NEGATIVES_INDEX = 2`,
`FALSE_NEGATIVES_INDEX = 3`, `PRECISION_INDEX = 4`, `RECALL_INDEX = 5`
live in the `metadata` module (not under `src/`); the spec fixes the row
order as true positives, false positives, true negatives, false
negatives, precision, recall, so `data_array[i]` row selection is
modelled as a named projection of this structure. -/
structure DataArray where
  tp : List ℚ
  fp : List ℚ
  tn : List ℚ
  fn : List ℚ
  precision : List PyFloat
  «recall» : List PyFloat
deriving DecidableEq, Repr

/-- One PR-curve entry, the result of `_make_pr_entry` (one step). -/
structure PrEntry where
  wall_time : ℚ
  step : ℤ
  precision : List PyFloat
  «recall» : List PyFloat
  true_positives : List ℤ
  false_positives : List ℤ
  true_negatives : List ℤ
  false_negatives : List ℤ
  thresholds : List ℚ
deriving DecidableEq, Repr

/-- `_compute_thresholds`:
`[float(v) / num_thresholds for v in range(1, num_thresholds + 1)]`. -/
def compute_thresholds (num_thresholds : ℕ) : List ℚ :=
  (List.range' 1 num_thresholds).map (fun v : ℕ => (v : ℚ) / (num_thresholds : ℚ))

/-- The per-column `positives` vector of `_make_pr_entry`:
`data_array[[tp_index, fp_index], :].astype(int).sum(axis=0)` —
each row is cast to int (truncation) first, then the two rows are summed
column-wise. -/
def positivesOf (tp fp : List ℚ) : List ℤ :=
  (tp.zip fp).map (fun p => ratTrunc p.1 + ratTrunc p.2)

/-- The `while` loop of `_make_pr_entry`, stepping `end_index_inclusive`
down from its start value `i` while it is `> 0` and the `positives` entry
there is `0`; returns the final `end_index_inclusive`. -/
def trimIndex (positives : List ℤ) : ℕ → ℕ
  | 0 => 0
  | i + 1 => if positives.getD (i + 1) 0 = 0 then trimIndex positives i else i + 1

/-- `end_index = end_index_inclusive + 1` where `end_index_inclusive`
starts at `len(positives) - 1`.  The empty-tensor case (where Python's
`len(positives) - 1` is `-1` and the loop does not run, giving
`end_index = 0`) is split out because the loop counter is a `ℕ` here. -/
def end_index (positives : List ℤ) : ℕ :=
  if positives.length = 0 then 0
  else trimIndex positives (positives.length - 1) + 1

/-- `_make_pr_entry(step, wall_time, data_array, thresholds)`. -/
def make_pr_entry (step : ℤ) (wall_time : ℚ) (d : DataArray)
    (thresholds : List ℚ) : PrEntry :=
  let true_positives := d.tp.map ratTrunc
  let false_positives := d.fp.map ratTrunc
  let positives := positivesOf d.tp d.fp
  let ei := end_index positives
  { wall_time := wall_time
    step := step
    precision := d.precision.take ei
    «recall» := d.«recall».take ei
    true_positives := true_positives.take ei
    false_positives := false_positives.take ei
    true_negatives := (d.tn.take ei).map ratTrunc
    false_negatives := (d.fn.take ei).map ratTrunc
    thresholds := thresholds.take ei }

/-- A stored tensor observation: `(step, wall_time, tensor_proto)` with the
tensor already decoded (`tensor_util.make_ndarray`). -/
structure TensorEvent where
  step : ℤ
  wall_time : ℚ
  tensor : DataArray
deriving DecidableEq, Repr

/-- Display metadata for one `(run, tag)` pair, as returned by
`multiplexer.SummaryMetadata(run, tag)`. -/
structure SummaryMeta where
  display_name : String
  summary_description : String
deriving DecidableEq, Repr

/-- The external time-series store (`context.multiplexer`), an injected
capability.  `tensors` models `Tensors(run, tag)`, with `none` for the
`KeyError` case; `numThresholds` models
`parse_plugin_metadata(SummaryMetadata(run, tag).plugin_data.content)
.num_thresholds`; `pluginMapping` models
`PluginRunToTagToContent(PLUGIN_NAME)` (the unused content values are
dropped); `runsList` models `Runs()`. -/
structure Multiplexer where
  runsList : List String
  tensors : String → String → Option (List TensorEvent)
  numThresholds : String → String → ℕ
  pluginMapping : List (String × List String)
  summaryMetadata : String → String → SummaryMeta

/-- First-match lookup in an insertion-ordered association list
(a Python dict read `m[k]` / `m.get(k)`). -/
def alistLookup {V : Type} (m : List (String × V)) (k : String) : Option V :=
  match m with
  | [] => none
  | p :: rest => if p.1 = k then some p.2 else alistLookup rest k

/-- Python dict assignment `m[k] = v`: overwrite in place when the key is
present (keeping its position), else append at the end. -/
def dictInsert {V : Type} (m : List (String × V)) (k : String) (v : V) :
    List (String × V) :=
  match m with
  | [] => [(k, v)]
  | p :: rest => if p.1 = k then (k, v) :: rest else p :: dictInsert rest k v

/-- The `ValueError` message
`"No PR curves could be found for run %r and tag %r" % (run, tag)`. -/
def noDataMsg (run tag : String) : String :=
  "No PR curves could be found for run '" ++ run ++ "' and tag '" ++ tag ++ "'"

/-- `_process_tensor_event(event, thresholds)`. -/
def process_tensor_event (e : TensorEvent) (thresholds : List ℚ) : PrEntry :=
  make_pr_entry e.step e.wall_time e.tensor thresholds

/-- The list of curve entries `pr_curves_impl` stores for one run:
`[self._process_tensor_event(e, thresholds) for e in tensor_events]` with
the thresholds computed from that `(run, tag)`'s metadata. -/
def runEntries (mux : Multiplexer) (run tag : String) (events : List TensorEvent) :
    List PrEntry :=
  events.map (fun e =>
    process_tensor_event e (compute_thresholds (mux.numThresholds run tag)))

/-- The `for run in runs` loop of `pr_curves_impl`, carrying the
`response_mapping` dict; a `KeyError` from `Tensors` becomes the
`ValueError` (modelled as `Except.error`). -/
def prCurvesLoop (mux : Multiplexer) (tag : String)
    (acc : List (String × List PrEntry)) :
    List String → Except String (List (String × List PrEntry))
  | [] => Except.ok acc
  | run :: rest =>
    match mux.tensors run tag with
    | none => Except.error (noDataMsg run tag)
    | some events =>
      prCurvesLoop mux tag (dictInsert acc run (runEntries mux run tag events)) rest

/-- `pr_curves_impl(runs, tag)`. -/
def pr_curves_impl (mux : Multiplexer) (runs : List String) (tag : String) :
    Except String (List (String × List PrEntry)) :=
  prCurvesLoop mux tag [] runs

/-- A response body: plain text, or the JSON rendering of a run mapping. -/
inductive Body where
  | text : String → Body
  | json : List (String × List PrEntry) → Body
deriving DecidableEq

/-- An HTTP response: status code, body, content type. -/
structure HttpResponse where
  code : ℕ
  body : Body
  content_type : String
deriving DecidableEq

/-- Modelled from the spec: `http_util.Respond` lives in
`tensorboard/backend/http_util.py`, which is not under `src/`.  Per the
spec's facade contract, the parameter-validation calls
(`Respond(request, msg, 400)`) produce status 400 with `msg` as a
plain-text body, the error path (`Respond(request, str(e), "text/plain",
400)`) produces status 400 with plain text, and the success calls
(`Respond(request, data, "application/json")`) produce status 200 with a
JSON body. -/
def Respond (body : Body) (content_type : String) (code : ℕ) : HttpResponse :=
  { code := code, body := body, content_type := content_type }

/-- An inbound HTTP request, reduced to the query parameters the routes
read: `request.args.getlist("run")` and `request.args.get("tag")` (the
latter is `None` when absent; an empty string is falsy in Python, so both
cases take the "no tag" branch). -/
structure Request where
  runs : List String
  tag : Option String

/-- `pr_curves_route(request)`. -/
def pr_curves_route (mux : Multiplexer) (req : Request) : HttpResponse :=
  if req.runs = [] then
    Respond (Body.text "No runs provided when fetching PR curve data") "text/plain" 400
  else
    match req.tag with
    | none => Respond (Body.text "No tag provided when fetching PR curve data") "text/plain" 400
    | some tag =>
      if tag = "" then
        Respond (Body.text "No tag provided when fetching PR curve data") "text/plain" 400
      else
        match pr_curves_impl mux req.runs tag with
        | Except.error e => Respond (Body.text e) "text/plain" 400
        | Except.ok m => Respond (Body.json m) "application/json" 200

/-- The metadata dictionary stored at `result[run][tag]` by `tags_impl`:
`{"displayName": ..., "description": ...}`. -/
structure TagInfo where
  displayName : String
  description : String
deriving DecidableEq, Repr

/-- The value `tags_impl` stores at `result[run][tag]`: the tag's display
name, and its description pushed through
`plugin_util.markdown_to_safe_html` (an external collaborator, injected
as `sanitize`). -/
def tagInfoFor (mux : Multiplexer) (sanitize : String → String)
    (run tag : String) : TagInfo :=
  { displayName := (mux.summaryMetadata run tag).display_name
    description := sanitize ((mux.summaryMetadata run tag).summary_description) }

/-- The outer `for (run, tag_to_content)` loop of `tags_impl`.  The inner
loop performs `result[run][tag] = ...` for each tag: reading `result[run]`
raises `KeyError` (modelled `none`) when the run is absent; the
consecutive single-key updates on `result[run]` are folded over the inner
dict and stored back once, which is equivalent since only that slot is
touched. -/
def tagsLoop (mux : Multiplexer) (sanitize : String → String)
    (res : List (String × List (String × TagInfo))) :
    List (String × List String) →
    Option (List (String × List (String × TagInfo)))
  | [] => some res
  | (run, tags) :: rest =>
    match alistLookup res run with
    | none => none
    | some inner =>
      tagsLoop mux sanitize
        (dictInsert res run
          (tags.foldl (fun acc tag => dictInsert acc tag (tagInfoFor mux sanitize run tag)) inner))
        rest

/-- `tags_impl()`: start from `{run: {} for run in runs}` and fill in the
plugin's tag metadata. -/
def tags_impl (mux : Multiplexer) (sanitize : String → String) :
    Option (List (String × List (String × TagInfo))) :=
  tagsLoop mux sanitize (mux.runsList.map (fun run => (run, []))) mux.pluginMapping

/-! ## Helper lemmas -/

theorem ratTrunc_eq_floor (q : ℚ) (h0 : 0 ≤ q) : ratTrunc q = ⌊q⌋ := by
  rw [ratTrunc, Rat.floor_def, Int.tdiv_eq_ediv (Rat.num_nonneg.mpr h0) (by positivity)]

theorem ratTrunc_zero_of_lt_one (q : ℚ) (h0 : 0 ≤ q) (h1 : q < 1) : ratTrunc q = 0 := by
  rw [ratTrunc_eq_floor q h0, Int.floor_eq_zero_iff]
  exact ⟨h0, h1⟩

theorem ratTrunc_nonneg (q : ℚ) (h0 : 0 ≤ q) : 0 ≤ ratTrunc q :=
  Int.tdiv_nonneg (Rat.num_nonneg.mpr h0) (by positivity)

theorem positivesOf_length (tp fp : List ℚ) :
    (positivesOf tp fp).length = min tp.length fp.length := by
  simp [positivesOf]

theorem positivesOf_getD (tp fp : List ℚ) (i : ℕ)
    (hi : i < min tp.length fp.length) :
    (positivesOf tp fp).getD i 0 = ratTrunc (tp.getD i 0) + ratTrunc (fp.getD i 0) := by
  have hlen : (positivesOf tp fp).length = min tp.length fp.length :=
    positivesOf_length tp fp
  have hi' : i < (positivesOf tp fp).length := by omega
  rw [List.getD_eq_getElem _ _ hi',
    List.getD_eq_getElem _ _ (show i < tp.length by omega),
    List.getD_eq_getElem _ _ (show i < fp.length by omega)]
  simp [positivesOf]

theorem trimIndex_le (l : List ℤ) (i : ℕ) : trimIndex l i ≤ i := by
  induction i with
  | zero => simp [trimIndex]
  | succ i ih =>
    rw [trimIndex]
    split
    · omega
    · omega

theorem end_index_le_length (l : List ℤ) : end_index l ≤ l.length := by
  rw [end_index]
  split
  · omega
  · have := trimIndex_le l (l.length - 1)
    omega

theorem end_index_pos (l : List ℤ) (h : 1 ≤ l.length) : 1 ≤ end_index l := by
  rw [end_index]
  split
  · omega
  · omega

theorem trimIndex_eq_findGreatest (l : List ℤ)
    (hl : ∀ j : ℕ, 0 ≤ l.getD j 0) (i : ℕ) :
    trimIndex l i = Nat.findGreatest (fun j => 0 < l.getD j 0) i := by
  induction i with
  | zero => simp [trimIndex]
  | succ i ih =>
    rw [trimIndex, Nat.findGreatest_succ]
    by_cases h : l.getD (i + 1) 0 = 0
    · rw [if_pos h, if_neg (by omega), ih]
    · rw [if_neg h, if_pos (by have := hl (i + 1); omega)]

theorem getD_take {α : Type} (l : List α) (n i : ℕ) (d : α) (h : i < n) :
    (l.take n).getD i d = l.getD i d := by
  by_cases hi : i < l.length
  · have h1 : i < (l.take n).length := by
      rw [List.length_take]; omega
    rw [List.getD_eq_getElem _ _ h1, List.getD_eq_getElem _ _ hi]
    exact List.getElem_take l
  · rw [List.getD_eq_default _ _ (by rw [List.length_take]; omega),
      List.getD_eq_default _ _ (by omega)]

/-! ## C2: the threshold generator -/

/-- C2: for every `num_thresholds ≥ 1`, `_compute_thresholds` returns
exactly `num_thresholds` values, the `i`-th being `(i+1)/num_thresholds`;
hence the list is strictly increasing, starts at `1/num_thresholds > 0`,
and ends at exactly `1`. -/
theorem C2_compute_thresholds (n : ℕ) (hn : 1 ≤ n) :
    (compute_thresholds n).length = n ∧
    (∀ i, i < n → (compute_thresholds n).getD i 0 = ((i : ℚ) + 1) / (n : ℚ)) ∧
    (∀ i j, i < j → j < n →
      (compute_thresholds n).getD i 0 < (compute_thresholds n).getD j 0) ∧
    (compute_thresholds n).getD 0 0 = 1 / (n : ℚ) ∧
    0 < (compute_thresholds n).getD 0 0 ∧
    (compute_thresholds n).getD (n - 1) 0 = 1 := by
  have hn' : (0 : ℚ) < (n : ℚ) := by exact_mod_cast hn
  have hlen : (compute_thresholds n).length = n := by
    rw [compute_thresholds, List.length_map, List.length_range']
  have key : ∀ i, i < n → (compute_thresholds n).getD i 0 = ((i : ℚ) + 1) / (n : ℚ) := by
    intro i hi
    rw [List.getD_eq_getElem _ _ (by omega : i < (compute_thresholds n).length)]
    simp [compute_thresholds, List.getElem_map, List.getElem_range']
    ring
  refine ⟨hlen, key, ?_, ?_, ?_, ?_⟩
  · intro i j hij hj
    rw [key i (by omega), key j hj]
    apply div_lt_div_of_pos_right _ hn'
    have : (i : ℚ) < (j : ℚ) := by exact_mod_cast hij
    linarith
  · rw [key 0 (by omega)]
    norm_num
  · rw [key 0 (by omega)]
    positivity
  · rw [key (n - 1) (by omega)]
    have hcast : ((n - 1 : ℕ) : ℚ) = (n : ℚ) - 1 := by
      push_cast [Nat.cast_sub hn]
      ring
    rw [hcast]
    field_simp

/-- Witness for C2 at `num_thresholds = 4`. -/
theorem C2_compute_thresholds_witness :
    1 ≤ 4 ∧
    ((compute_thresholds 4).length = 4 ∧
    (∀ i, i < 4 → (compute_thresholds 4).getD i 0 = ((i : ℚ) + 1) / (4 : ℚ)) ∧
    (∀ i j, i < j → j < 4 →
      (compute_thresholds 4).getD i 0 < (compute_thresholds 4).getD j 0) ∧
    (compute_thresholds 4).getD 0 0 = 1 / (4 : ℚ) ∧
    0 < (compute_thresholds 4).getD 0 0 ∧
    (compute_thresholds 4).getD (4 - 1) 0 = 1) :=
  ⟨by norm_num, C2_compute_thresholds 4 (by norm_num)⟩

/-! ## Projections of `make_pr_entry` -/

theorem make_pr_entry_precision (step : ℤ) (wt : ℚ) (d : DataArray) (th : List ℚ) :
    (make_pr_entry step wt d th).precision =
      d.precision.take (end_index (positivesOf d.tp d.fp)) := rfl

theorem make_pr_entry_recall (step : ℤ) (wt : ℚ) (d : DataArray) (th : List ℚ) :
    (make_pr_entry step wt d th).«recall» =
      d.«recall».take (end_index (positivesOf d.tp d.fp)) := rfl

theorem make_pr_entry_tp (step : ℤ) (wt : ℚ) (d : DataArray) (th : List ℚ) :
    (make_pr_entry step wt d th).true_positives =
      (d.tp.map ratTrunc).take (end_index (positivesOf d.tp d.fp)) := rfl

theorem make_pr_entry_fp (step : ℤ) (wt : ℚ) (d : DataArray) (th : List ℚ) :
    (make_pr_entry step wt d th).false_positives =
      (d.fp.map ratTrunc).take (end_index (positivesOf d.tp d.fp)) := rfl

theorem make_pr_entry_tn (step : ℤ) (wt : ℚ) (d : DataArray) (th : List ℚ) :
    (make_pr_entry step wt d th).true_negatives =
      (d.tn.take (end_index (positivesOf d.tp d.fp))).map ratTrunc := rfl

theorem make_pr_entry_fn (step : ℤ) (wt : ℚ) (d : DataArray) (th : List ℚ) :
    (make_pr_entry step wt d th).false_negatives =
      (d.fn.take (end_index (positivesOf d.tp d.fp))).map ratTrunc := rfl

theorem make_pr_entry_thresholds (step : ℤ) (wt : ℚ) (d : DataArray) (th : List ℚ) :
    (make_pr_entry step wt d th).thresholds =
      th.take (end_index (positivesOf d.tp d.fp)) := rfl

theorem take_ne_nil {α : Type} (l : List α) (n : ℕ) (hn : 1 ≤ n)
    (hl : 1 ≤ l.length) : l.take n ≠ [] := by
  intro hcon
  rcases List.take_eq_nil_iff.mp hcon with h | h
  · omega
  · rw [h] at hl
    simp at hl

/-! ## C1: the trim boundary -/

/-- C1: on a width-`w ≥ 1` confusion-matrix tensor (rows of length `w`,
counts non-negative), the exclusive cut `end_index` is `1 +` the largest
column index whose positives (truncated TP + truncated FP) are positive
(`Nat.findGreatest` is `0` when no column is positive, giving
`end_index = 1` for an all-zero-positives tensor), and none of the seven
returned sequences is ever empty. -/
theorem C1_trim_boundary (d : DataArray) (w : ℕ) (hw : 1 ≤ w)
    (htp : d.tp.length = w) (hfp : d.fp.length = w)
    (htn : d.tn.length = w) (hfn : d.fn.length = w)
    (hpr : d.precision.length = w) (hre : d.«recall».length = w)
    (hnn_tp : ∀ q ∈ d.tp, 0 ≤ q) (hnn_fp : ∀ q ∈ d.fp, 0 ≤ q)
    (step : ℤ) (wt : ℚ) (thresholds : List ℚ) (hth : thresholds.length = w) :
    end_index (positivesOf d.tp d.fp) =
      Nat.findGreatest (fun i => 0 < (positivesOf d.tp d.fp).getD i 0) (w - 1) + 1 ∧
    ((∀ i, i < w → (positivesOf d.tp d.fp).getD i 0 = 0) →
      end_index (positivesOf d.tp d.fp) = 1) ∧
    (make_pr_entry step wt d thresholds).precision ≠ [] ∧
    (make_pr_entry step wt d thresholds).«recall» ≠ [] ∧
    (make_pr_entry step wt d thresholds).true_positives ≠ [] ∧
    (make_pr_entry step wt d thresholds).false_positives ≠ [] ∧
    (make_pr_entry step wt d thresholds).true_negatives ≠ [] ∧
    (make_pr_entry step wt d thresholds).false_negatives ≠ [] ∧
    (make_pr_entry step wt d thresholds).thresholds ≠ [] := by
  have hPlen : (positivesOf d.tp d.fp).length = w := by
    rw [positivesOf_length, htp, hfp, min_self]
  have hPnn : ∀ j : ℕ, 0 ≤ (positivesOf d.tp d.fp).getD j 0 := by
    intro j
    by_cases hj : j < w
    · rw [positivesOf_getD _ _ j (by omega)]
      have hjt : j < d.tp.length := by omega
      have hjf : j < d.fp.length := by omega
      apply add_nonneg
      · apply ratTrunc_nonneg
        rw [List.getD_eq_getElem _ _ hjt]
        exact hnn_tp _ (List.getElem_mem hjt)
      · apply ratTrunc_nonneg
        rw [List.getD_eq_getElem _ _ hjf]
        exact hnn_fp _ (List.getElem_mem hjf)
    · rw [List.getD_eq_default _ _ (by omega)]
  have hmain : end_index (positivesOf d.tp d.fp) =
      Nat.findGreatest (fun i => 0 < (positivesOf d.tp d.fp).getD i 0) (w - 1) + 1 := by
    rw [end_index, hPlen, if_neg (by omega),
      trimIndex_eq_findGreatest _ hPnn]
  have hei : 1 ≤ end_index (positivesOf d.tp d.fp) :=
    end_index_pos _ (by omega)
  refine ⟨hmain, ?_, ?_, ?_, ?_, ?_, ?_, ?_, ?_⟩
  · intro hall
    rw [hmain, Nat.findGreatest_eq_zero_iff.mpr ?_]
    intro i hi0 hiw
    rw [hall i (by omega)]
    omega
  · rw [make_pr_entry_precision]
    exact take_ne_nil _ _ hei (by omega)
  · rw [make_pr_entry_recall]
    exact take_ne_nil _ _ hei (by omega)
  · rw [make_pr_entry_tp]
    exact take_ne_nil _ _ hei (by simp [htp]; omega)
  · rw [make_pr_entry_fp]
    exact take_ne_nil _ _ hei (by simp [hfp]; omega)
  · rw [make_pr_entry_tn]
    intro hcon
    rw [List.map_eq_nil_iff] at hcon
    exact take_ne_nil _ _ hei (by omega) hcon
  · rw [make_pr_entry_fn]
    intro hcon
    rw [List.map_eq_nil_iff] at hcon
    exact take_ne_nil _ _ hei (by omega) hcon
  · rw [make_pr_entry_thresholds]
    exact take_ne_nil _ _ hei (by omega)

/-- The end-to-end example tensor from the spec: TP=[5,3,0], FP=[2,1,0],
TN=[0,1,2], FN=[0,0,1], precision=[0.71,0.75,NaN], recall=[1,1,0]. -/
def exampleData : DataArray :=
  { tp := [5, 3, 0]
    fp := [2, 1, 0]
    tn := [0, 1, 2]
    fn := [0, 0, 1]
    precision := [PyFloat.val 0.71, PyFloat.val 0.75, PyFloat.nan]
    «recall» := [PyFloat.val 1, PyFloat.val 1, PyFloat.val 0] }

/-- The thresholds [0.33, 0.67, 1.0] that accompany `exampleData`. -/
def exampleThresholds : List ℚ := [0.33, 0.67, 1]

/-- Witness for C1 on the spec's example tensor (width 3). -/
theorem C1_trim_boundary_witness :
    1 ≤ 3 ∧
    (end_index (positivesOf exampleData.tp exampleData.fp) =
      Nat.findGreatest
        (fun i => 0 < (positivesOf exampleData.tp exampleData.fp).getD i 0) (3 - 1) + 1 ∧
    ((∀ i, i < 3 → (positivesOf exampleData.tp exampleData.fp).getD i 0 = 0) →
      end_index (positivesOf exampleData.tp exampleData.fp) = 1) ∧
    (make_pr_entry 0 0 exampleData exampleThresholds).precision ≠ [] ∧
    (make_pr_entry 0 0 exampleData exampleThresholds).«recall» ≠ [] ∧
    (make_pr_entry 0 0 exampleData exampleThresholds).true_positives ≠ [] ∧
    (make_pr_entry 0 0 exampleData exampleThresholds).false_positives ≠ [] ∧
    (make_pr_entry 0 0 exampleData exampleThresholds).true_negatives ≠ [] ∧
    (make_pr_entry 0 0 exampleData exampleThresholds).false_negatives ≠ [] ∧
    (make_pr_entry 0 0 exampleData exampleThresholds).thresholds ≠ []) :=
  ⟨by norm_num,
   C1_trim_boundary exampleData 3 (by norm_num) rfl rfl rfl rfl rfl rfl
     (by intro q hq; simp [exampleData] at hq; rcases hq with h | h | h <;> simp [h])
     (by intro q hq; simp [exampleData] at hq; rcases hq with h | h | h <;> simp [h])
     0 0 exampleThresholds rfl⟩

/-! ## C4: all output sequences share the trimmed length -/

/-- C4: when the six tensor rows and the thresholds all have the tensor's
width `w`, the seven sequences of the returned entry all have length
`end_index`. -/
theorem C4_equal_lengths (d : DataArray) (w : ℕ)
    (htp : d.tp.length = w) (hfp : d.fp.length = w)
    (htn : d.tn.length = w) (hfn : d.fn.length = w)
    (hpr : d.precision.length = w) (hre : d.«recall».length = w)
    (step : ℤ) (wt : ℚ) (thresholds : List ℚ) (hth : thresholds.length = w) :
    (make_pr_entry step wt d thresholds).precision.length =
      end_index (positivesOf d.tp d.fp) ∧
    (make_pr_entry step wt d thresholds).«recall».length =
      end_index (positivesOf d.tp d.fp) ∧
    (make_pr_entry step wt d thresholds).true_positives.length =
      end_index (positivesOf d.tp d.fp) ∧
    (make_pr_entry step wt d thresholds).false_positives.length =
      end_index (positivesOf d.tp d.fp) ∧
    (make_pr_entry step wt d thresholds).true_negatives.length =
      end_index (positivesOf d.tp d.fp) ∧
    (make_pr_entry step wt d thresholds).false_negatives.length =
      end_index (positivesOf d.tp d.fp) ∧
    (make_pr_entry step wt d thresholds).thresholds.length =
      end_index (positivesOf d.tp d.fp) := by
  have hPlen : (positivesOf d.tp d.fp).length = w := by
    rw [positivesOf_length, htp, hfp, min_self]
  have hle : end_index (positivesOf d.tp d.fp) ≤ w := by
    have := end_index_le_length (positivesOf d.tp d.fp)
    omega
  refine ⟨?_, ?_, ?_, ?_, ?_, ?_, ?_⟩
  · rw [make_pr_entry_precision, List.length_take]
    omega
  · rw [make_pr_entry_recall, List.length_take]
    omega
  · rw [make_pr_entry_tp, List.length_take, List.length_map]
    omega
  · rw [make_pr_entry_fp, List.length_take, List.length_map]
    omega
  · rw [make_pr_entry_tn, List.length_map, List.length_take]
    omega
  · rw [make_pr_entry_fn, List.length_map, List.length_take]
    omega
  · rw [make_pr_entry_thresholds, List.length_take]
    omega

/-- Witness for C4 on the spec's example tensor. -/
theorem C4_equal_lengths_witness :
    exampleData.tp.length = 3 ∧
    ((make_pr_entry 0 0 exampleData exampleThresholds).precision.length =
      end_index (positivesOf exampleData.tp exampleData.fp) ∧
    (make_pr_entry 0 0 exampleData exampleThresholds).«recall».length =
      end_index (positivesOf exampleData.tp exampleData.fp) ∧
    (make_pr_entry 0 0 exampleData exampleThresholds).true_positives.length =
      end_index (positivesOf exampleData.tp exampleData.fp) ∧
    (make_pr_entry 0 0 exampleData exampleThresholds).false_positives.length =
      end_index (positivesOf exampleData.tp exampleData.fp) ∧
    (make_pr_entry 0 0 exampleData exampleThresholds).true_negatives.length =
      end_index (positivesOf exampleData.tp exampleData.fp) ∧
    (make_pr_entry 0 0 exampleData exampleThresholds).false_negatives.length =
      end_index (positivesOf exampleData.tp exampleData.fp) ∧
    (make_pr_entry 0 0 exampleData exampleThresholds).thresholds.length =
      end_index (positivesOf exampleData.tp exampleData.fp)) :=
  ⟨rfl, C4_equal_lengths exampleData 3 rfl rfl rfl rfl rfl rfl 0 0 exampleThresholds rfl⟩

/-! ## C5: content of the trimmed sequences -/

theorem getD_map_ratTrunc (l : List ℚ) (i : ℕ) (h : i < l.length) :
    (l.map ratTrunc).getD i 0 = ratTrunc (l.getD i 0) := by
  rw [List.getD_eq_getElem _ _ (by simpa), List.getD_eq_getElem _ _ h, List.getElem_map]

/-- C5: within the trimmed length, the four count sequences are the
corresponding rows cast element-wise to integers (truncation toward
zero), and the precision/recall sequences are the corresponding rows
forwarded unmodified (the equality is over `PyFloat`, so a NaN at a
retained position is forwarded as NaN). -/
theorem C5_content (d : DataArray) (w : ℕ)
    (htp : d.tp.length = w) (hfp : d.fp.length = w)
    (htn : d.tn.length = w) (hfn : d.fn.length = w)
    (hpr : d.precision.length = w) (hre : d.«recall».length = w)
    (step : ℤ) (wt : ℚ) (thresholds : List ℚ) :
    (∀ i, i < end_index (positivesOf d.tp d.fp) →
      (make_pr_entry step wt d thresholds).true_positives.getD i 0 =
        ratTrunc (d.tp.getD i 0)) ∧
    (∀ i, i < end_index (positivesOf d.tp d.fp) →
      (make_pr_entry step wt d thresholds).false_positives.getD i 0 =
        ratTrunc (d.fp.getD i 0)) ∧
    (∀ i, i < end_index (positivesOf d.tp d.fp) →
      (make_pr_entry step wt d thresholds).true_negatives.getD i 0 =
        ratTrunc (d.tn.getD i 0)) ∧
    (∀ i, i < end_index (positivesOf d.tp d.fp) →
      (make_pr_entry step wt d thresholds).false_negatives.getD i 0 =
        ratTrunc (d.fn.getD i 0)) ∧
    (∀ i, i < end_index (positivesOf d.tp d.fp) →
      (make_pr_entry step wt d thresholds).precision.getD i PyFloat.nan =
        d.precision.getD i PyFloat.nan) ∧
    (∀ i, i < end_index (positivesOf d.tp d.fp) →
      (make_pr_entry step wt d thresholds).«recall».getD i PyFloat.nan =
        d.«recall».getD i PyFloat.nan) := by
  have hPlen : (positivesOf d.tp d.fp).length = w := by
    rw [positivesOf_length, htp, hfp, min_self]
  have hle : end_index (positivesOf d.tp d.fp) ≤ w := by
    have := end_index_le_length (positivesOf d.tp d.fp)
    omega
  refine ⟨?_, ?_, ?_, ?_, ?_, ?_⟩
  · intro i hi
    rw [make_pr_entry_tp, getD_take _ _ _ _ hi, getD_map_ratTrunc _ _ (by omega)]
  · intro i hi
    rw [make_pr_entry_fp, getD_take _ _ _ _ hi, getD_map_ratTrunc _ _ (by omega)]
  · intro i hi
    rw [make_pr_entry_tn,
      getD_map_ratTrunc _ _ (by rw [List.length_take]; omega),
      getD_take _ _ _ _ hi]
  · intro i hi
    rw [make_pr_entry_fn,
      getD_map_ratTrunc _ _ (by rw [List.length_take]; omega),
      getD_take _ _ _ _ hi]
  · intro i hi
    rw [make_pr_entry_precision, getD_take _ _ _ _ hi]
  · intro i hi
    rw [make_pr_entry_recall, getD_take _ _ _ _ hi]

/-- Witness for C5 on the spec's example tensor (NaN sits at the trimmed
position 2; positions 0 and 1 are forwarded). -/
theorem C5_content_witness :
    exampleData.precision.length = 3 ∧
    ((∀ i, i < end_index (positivesOf exampleData.tp exampleData.fp) →
      (make_pr_entry 0 0 exampleData exampleThresholds).true_positives.getD i 0 =
        ratTrunc (exampleData.tp.getD i 0)) ∧
    (∀ i, i < end_index (positivesOf exampleData.tp exampleData.fp) →
      (make_pr_entry 0 0 exampleData exampleThresholds).false_positives.getD i 0 =
        ratTrunc (exampleData.fp.getD i 0)) ∧
    (∀ i, i < end_index (positivesOf exampleData.tp exampleData.fp) →
      (make_pr_entry 0 0 exampleData exampleThresholds).true_negatives.getD i 0 =
        ratTrunc (exampleData.tn.getD i 0)) ∧
    (∀ i, i < end_index (positivesOf exampleData.tp exampleData.fp) →
      (make_pr_entry 0 0 exampleData exampleThresholds).false_negatives.getD i 0 =
        ratTrunc (exampleData.fn.getD i 0)) ∧
    (∀ i, i < end_index (positivesOf exampleData.tp exampleData.fp) →
      (make_pr_entry 0 0 exampleData exampleThresholds).precision.getD i PyFloat.nan =
        exampleData.precision.getD i PyFloat.nan) ∧
    (∀ i, i < end_index (positivesOf exampleData.tp exampleData.fp) →
      (make_pr_entry 0 0 exampleData exampleThresholds).«recall».getD i PyFloat.nan =
        exampleData.«recall».getD i PyFloat.nan)) :=
  ⟨rfl, C5_content exampleData 3 rfl rfl rfl rfl rfl rfl 0 0 exampleThresholds⟩

/-! ## C6: end-to-end example -/

/-- C6: on the spec's example tensor with thresholds [0.33, 0.67, 1.0],
`_make_pr_entry` drops exactly the trailing column at index 2 and returns
the length-2 sequences TP=[5,3], FP=[2,1], TN=[0,1], FN=[0,0],
precision=[0.71,0.75], recall=[1,1], thresholds=[0.33,0.67]. -/
theorem C6_end_to_end :
    make_pr_entry 0 0 exampleData exampleThresholds =
      { wall_time := 0
        step := 0
        precision := [PyFloat.val 0.71, PyFloat.val 0.75]
        «recall» := [PyFloat.val 1, PyFloat.val 1]
        true_positives := [5, 3]
        false_positives := [2, 1]
        true_negatives := [0, 1]
        false_negatives := [0, 0]
        thresholds := [0.33, 0.67] } := by
  rfl

/-! ## C9: positives are summed after integer truncation -/

/-- C9: the per-column `positives` used for the trim decision is
`trunc(TP[i]) + trunc(FP[i])` (cast to int first, then summed), so a
trailing column whose TP and FP are both strictly between 0 and 1 is
still trimmed even though TP + FP > 0 there. -/
theorem C9_truncate_then_sum (tp fp : List ℚ) (w : ℕ)
    (htp : tp.length = w) (hfp : fp.length = w) :
    (∀ i, i < w →
      (positivesOf tp fp).getD i 0 = ratTrunc (tp.getD i 0) + ratTrunc (fp.getD i 0)) ∧
    (2 ≤ w →
      0 < tp.getD (w - 1) 0 → tp.getD (w - 1) 0 < 1 →
      0 < fp.getD (w - 1) 0 → fp.getD (w - 1) 0 < 1 →
      end_index (positivesOf tp fp) < w) := by
  have hPlen : (positivesOf tp fp).length = w := by
    rw [positivesOf_length, htp, hfp, min_self]
  constructor
  · intro i hi
    exact positivesOf_getD tp fp i (by omega)
  · intro hw htp0 htp1 hfp0 hfp1
    have h0 : (positivesOf tp fp).getD (w - 1) 0 = 0 := by
      rw [positivesOf_getD tp fp (w - 1) (by omega),
        ratTrunc_zero_of_lt_one _ (le_of_lt htp0) htp1,
        ratTrunc_zero_of_lt_one _ (le_of_lt hfp0) hfp1]
      ring
    have hstep : trimIndex (positivesOf tp fp) (w - 1) ≤ w - 2 := by
      have hsplit : w - 1 = (w - 2) + 1 := by omega
      rw [hsplit] at h0 ⊢
      rw [trimIndex, if_pos h0]
      exact trimIndex_le _ _
    rw [end_index, hPlen, if_neg (by omega)]
    omega

/-- Witness for C9: width-2 rows whose last column has TP = 1/2 and
FP = 1/4 (sum 3/4 > 0) — the column is trimmed anyway. -/
theorem C9_truncate_then_sum_witness :
    2 ≤ 2 ∧
    ((∀ i, i < 2 →
      (positivesOf [2, 1/2] [3, 1/4]).getD i 0 =
        ratTrunc (([2, 1/2] : List ℚ).getD i 0) + ratTrunc (([3, 1/4] : List ℚ).getD i 0)) ∧
    (2 ≤ 2 →
      0 < ([2, 1/2] : List ℚ).getD (2 - 1) 0 → ([2, 1/2] : List ℚ).getD (2 - 1) 0 < 1 →
      0 < ([3, 1/4] : List ℚ).getD (2 - 1) 0 → ([3, 1/4] : List ℚ).getD (2 - 1) 0 < 1 →
      end_index (positivesOf [2, 1/2] [3, 1/4]) < 2)) :=
  ⟨by norm_num, C9_truncate_then_sum [2, 1/2] [3, 1/4] 2 rfl rfl⟩

/-! ## Dict lemmas -/

theorem mem_dictInsert_sub {V : Type} (m : List (String × V)) (k : String) (v : V)
    (p : String × V) (hp : p ∈ dictInsert m k v) : p = (k, v) ∨ p ∈ m := by
  induction m with
  | nil =>
    rw [dictInsert] at hp
    simp at hp
    exact Or.inl hp
  | cons q rest ih =>
    rw [dictInsert] at hp
    by_cases h : q.1 = k
    · rw [if_pos h] at hp
      rcases List.mem_cons.mp hp with h' | h'
      · exact Or.inl h'
      · exact Or.inr (List.mem_cons_of_mem _ h')
    · rw [if_neg h] at hp
      rcases List.mem_cons.mp hp with h' | h'
      · exact Or.inr (by simp [h'])
      · rcases ih h' with h'' | h''
        · exact Or.inl h''
        · exact Or.inr (List.mem_cons_of_mem _ h'')

theorem keys_dictInsert_mem {V : Type} (m : List (String × V)) (k : String) (v : V)
    (r : String) :
    r ∈ (dictInsert m k v).map Prod.fst ↔ r ∈ m.map Prod.fst ∨ r = k := by
  induction m with
  | nil => simp [dictInsert]
  | cons q rest ih =>
    rw [dictInsert]
    by_cases h : q.1 = k
    · rw [if_pos h]
      simp [h]
      tauto
    · rw [if_neg h]
      simp [ih]
      tauto

theorem keys_dictInsert_nodup {V : Type} (m : List (String × V)) (k : String) (v : V)
    (hm : (m.map Prod.fst).Nodup) : ((dictInsert m k v).map Prod.fst).Nodup := by
  induction m with
  | nil => simp [dictInsert]
  | cons q rest ih =>
    rw [dictInsert]
    rw [List.map_cons, List.nodup_cons] at hm
    by_cases h : q.1 = k
    · rw [if_pos h]
      rw [List.map_cons, List.nodup_cons]
      exact ⟨by rw [← h]; exact hm.1, hm.2⟩
    · rw [if_neg h]
      rw [List.map_cons, List.nodup_cons]
      refine ⟨?_, ih hm.2⟩
      rw [keys_dictInsert_mem]
      push_neg
      exact ⟨hm.1, h⟩

/-! ## C3: any missing run aborts the whole aggregation -/

theorem prCurvesLoop_error (mux : Multiplexer) (tag : String) (runs : List String)
    (r₀ : String) :
    ∀ acc : List (String × List PrEntry),
    runs.find? (fun r => (mux.tensors r tag).isNone) = some r₀ →
    prCurvesLoop mux tag acc runs = Except.error (noDataMsg r₀ tag) := by
  induction runs with
  | nil => intro acc hfind; simp at hfind
  | cons run rest ih =>
    intro acc hfind
    by_cases h : (mux.tensors run tag).isNone
    · have hnone : mux.tensors run tag = none := Option.isNone_iff_eq_none.mp h
      have hr : run = r₀ := by
        rw [List.find?_cons_of_pos _ (by simp [h])] at hfind
        exact Option.some.inj hfind
      rw [prCurvesLoop, hnone, hr]
    · obtain ⟨ev, hev⟩ : ∃ ev, mux.tensors run tag = some ev := by
        cases hcase : mux.tensors run tag with
        | none => rw [hcase] at h; simp at h
        | some ev => exact ⟨ev, rfl⟩
      rw [List.find?_cons_of_neg _ (by simp [h])] at hfind
      rw [prCurvesLoop, hev]
      exact ih _ hfind

/-- C3: if any requested run has no stored tensor events for the tag,
`pr_curves_impl` fails as a whole with the "no data" `ValueError` naming
the first offending run and the tag; no partial mapping is returned. -/
theorem C3_all_or_nothing (mux : Multiplexer) (runs : List String) (tag r₀ : String)
    (hfind : runs.find? (fun r => (mux.tensors r tag).isNone) = some r₀) :
    pr_curves_impl mux runs tag = Except.error (noDataMsg r₀ tag) :=
  prCurvesLoop_error mux tag runs r₀ [] hfind

/-- A store in which run "A" has (empty) tensor data for every tag and
every other run has none. -/
def muxOnlyA : Multiplexer :=
  { runsList := ["A"]
    tensors := fun run _ => if run = "A" then some [] else none
    numThresholds := fun _ _ => 1
    pluginMapping := []
    summaryMetadata := fun _ _ => { display_name := "", summary_description := "" } }

/-- Witness for C3: runs = [A, B] where A has data and B does not — the
whole request fails with the error naming B, with no partial mapping. -/
theorem C3_all_or_nothing_witness :
    (["A", "B"].find? (fun r => (muxOnlyA.tensors r "t").isNone) = some "B") ∧
    pr_curves_impl muxOnlyA ["A", "B"] "t" =
      Except.error (noDataMsg "B" "t") :=
  ⟨by rfl, C3_all_or_nothing muxOnlyA ["A", "B"] "t" "B" (by rfl)⟩

/-! ## C10: duplicate requested runs collapse to one entry per run -/

theorem prCurvesLoop_ok (mux : Multiplexer) (tag : String) (runs : List String) :
    ∀ acc : List (String × List PrEntry),
    (∀ r ∈ runs, (mux.tensors r tag).isSome) →
    (acc.map Prod.fst).Nodup →
    (∀ p ∈ acc, ∃ ev, mux.tensors p.1 tag = some ev ∧
      p.2 = runEntries mux p.1 tag ev) →
    ∃ m, prCurvesLoop mux tag acc runs = Except.ok m ∧
      (m.map Prod.fst).Nodup ∧
      (∀ r, r ∈ m.map Prod.fst ↔ r ∈ acc.map Prod.fst ∨ r ∈ runs) ∧
      (∀ p ∈ m, ∃ ev, mux.tensors p.1 tag = some ev ∧
        p.2 = runEntries mux p.1 tag ev) := by
  induction runs with
  | nil =>
    intro acc _ hnd hq
    exact ⟨acc, rfl, hnd, by simp, hq⟩
  | cons run rest ih =>
    intro acc hall hnd hq
    obtain ⟨ev, hev⟩ : ∃ ev, mux.tensors run tag = some ev := by
      cases hcase : mux.tensors run tag with
      | none => have := hall run (by simp); rw [hcase] at this; simp at this
      | some ev => exact ⟨ev, rfl⟩
    obtain ⟨m, hm, hnd', hmem, hq'⟩ :=
      ih (dictInsert acc run (runEntries mux run tag ev))
        (fun r hr => hall r (by simp [hr]))
        (keys_dictInsert_nodup _ _ _ hnd)
        (by
          intro p hp
          rcases mem_dictInsert_sub _ _ _ _ hp with h' | h'
          · subst h'
            exact ⟨ev, hev, rfl⟩
          · exact hq p h')
    refine ⟨m, ?_, hnd', ?_, hq'⟩
    · rw [prCurvesLoop, hev]
      exact hm
    · intro r
      rw [hmem r, keys_dictInsert_mem]
      simp
      tauto

/-- C10: when the requested run list repeats a run identifier, the
returned mapping has exactly one entry per distinct requested run (keys
are duplicate-free, the key set equals the set of requested runs, the
number of keys is the number of distinct runs), and — the later
occurrence overwriting the earlier under the same key — every entry
holds the processed curve entries for its run. -/
theorem C10_duplicate_runs (mux : Multiplexer) (runs : List String) (tag : String)
    (hall : ∀ r ∈ runs, (mux.tensors r tag).isSome) :
    ∃ m, pr_curves_impl mux runs tag = Except.ok m ∧
      (m.map Prod.fst).Nodup ∧
      (∀ r, r ∈ m.map Prod.fst ↔ r ∈ runs) ∧
      m.length = runs.toFinset.card ∧
      (∀ p ∈ m, ∃ ev, mux.tensors p.1 tag = some ev ∧
        p.2 = runEntries mux p.1 tag ev) := by
  obtain ⟨m, hm, hnd, hmem, hq⟩ := prCurvesLoop_ok mux tag runs []
    hall (by simp) (by simp)
  have hmem' : ∀ r, r ∈ m.map Prod.fst ↔ r ∈ runs := by
    intro r
    rw [hmem r]
    simp
  refine ⟨m, hm, hnd, hmem', ?_, hq⟩
  have hfin : (m.map Prod.fst).toFinset = runs.toFinset := by
    apply Finset.ext
    intro r
    rw [List.mem_toFinset, List.mem_toFinset, hmem' r]
  calc m.length = (m.map Prod.fst).length := (List.length_map _ _).symm
  _ = (m.map Prod.fst).toFinset.card := (List.toFinset_card_of_nodup hnd).symm
  _ = runs.toFinset.card := by rw [hfin]

/-- A store in which runs "A" and "B" both have (empty) tensor data for
every tag. -/
def muxAB : Multiplexer :=
  { runsList := ["A", "B"]
    tensors := fun run _ => if run = "A" ∨ run = "B" then some [] else none
    numThresholds := fun _ _ => 1
    pluginMapping := []
    summaryMetadata := fun _ _ => { display_name := "", summary_description := "" } }

/-- Witness for C10: runs = [A, A, B] against a store where both A and B
have data — the mapping has exactly the two keys A and B. -/
theorem C10_duplicate_runs_witness :
    (∀ r ∈ ["A", "A", "B"], (muxAB.tensors r "t").isSome) ∧
    (∃ m, pr_curves_impl muxAB ["A", "A", "B"] "t" = Except.ok m ∧
      (m.map Prod.fst).Nodup ∧
      (∀ r, r ∈ m.map Prod.fst ↔ r ∈ ["A", "A", "B"]) ∧
      m.length = (["A", "A", "B"] : List String).toFinset.card ∧
      (∀ p ∈ m, ∃ ev, muxAB.tensors p.1 "t" = some ev ∧
        p.2 = runEntries muxAB p.1 "t" ev)) :=
  ⟨by decide, C10_duplicate_runs muxAB ["A", "A", "B"] "t" (by decide)⟩

/-! ## C7: missing `run` parameter -/

/-- C7: a `/pr_curves` request with no `run` query parameter gets status
400 with the exact plain-text body
"No runs provided when fetching PR curve data". -/
theorem C7_no_runs_param (mux : Multiplexer) (req : Request)
    (h : req.runs = []) :
    (pr_curves_route mux req).code = 400 ∧
    (pr_curves_route mux req).body =
      Body.text "No runs provided when fetching PR curve data" ∧
    (pr_curves_route mux req).content_type = "text/plain" := by
  rw [pr_curves_route, if_pos h]
  exact ⟨rfl, rfl, rfl⟩

/-- Witness for C7: the empty request against a concrete store. -/
theorem C7_no_runs_param_witness :
    (Request.mk [] none).runs = [] ∧
    ((pr_curves_route muxOnlyA (Request.mk [] none)).code = 400 ∧
    (pr_curves_route muxOnlyA (Request.mk [] none)).body =
      Body.text "No runs provided when fetching PR curve data" ∧
    (pr_curves_route muxOnlyA (Request.mk [] none)).content_type = "text/plain") :=
  ⟨rfl, C7_no_runs_param muxOnlyA (Request.mk [] none) rfl⟩

/-! ## C8: the tag catalog -/

theorem alistLookup_dictInsert {V : Type} (m : List (String × V)) (k : String)
    (v : V) (r : String) :
    alistLookup (dictInsert m k v) r = if k = r then some v else alistLookup m r := by
  induction m with
  | nil =>
    simp [dictInsert, alistLookup]
  | cons p rest ih =>
    rw [dictInsert]
    by_cases hpk : p.1 = k
    · rw [if_pos hpk, alistLookup, alistLookup]
      by_cases hkr : k = r
      · rw [if_pos hkr, if_pos hkr]
      · rw [if_neg hkr, if_neg hkr, if_neg (by rw [hpk]; exact hkr)]
    · rw [if_neg hpk, alistLookup, alistLookup]
      by_cases hpr : p.1 = r
      · rw [if_pos hpr, if_pos hpr, if_neg (by rw [← hpr]; intro hc; exact hpk hc.symm)]
      · rw [if_neg hpr, if_neg hpr, ih]

/-- The inner-loop fold of `tags_impl` for one run's tag list. -/
def tagFold (I : String → TagInfo) (init : List (String × TagInfo))
    (ts : List String) : List (String × TagInfo) :=
  ts.foldl (fun acc t => dictInsert acc t (I t)) init

theorem tagFold_lookup_notmem (I : String → TagInfo) (ts : List String)
    (tag : String) (h : tag ∉ ts) (init : List (String × TagInfo)) :
    alistLookup (tagFold I init ts) tag = alistLookup init tag := by
  induction ts generalizing init with
  | nil => rfl
  | cons t rest ih =>
    rw [tagFold, List.foldl_cons]
    have h1 : tag ∉ rest := fun hc => h (List.mem_cons_of_mem _ hc)
    have h2 : t ≠ tag := fun hc => h (by rw [hc]; exact List.mem_cons_self _ _)
    rw [show rest.foldl (fun acc t => dictInsert acc t (I t))
        (dictInsert init t (I t)) = tagFold I (dictInsert init t (I t)) rest from rfl,
      ih h1 _, alistLookup_dictInsert, if_neg h2]

theorem tagFold_lookup_mem (I : String → TagInfo) (ts : List String)
    (hnd : ts.Nodup) (tag : String) (htag : tag ∈ ts)
    (init : List (String × TagInfo)) :
    alistLookup (tagFold I init ts) tag = some (I tag) := by
  induction ts generalizing init with
  | nil => simp at htag
  | cons t rest ih =>
    rw [List.nodup_cons] at hnd
    rw [tagFold, List.foldl_cons,
      show rest.foldl (fun acc t => dictInsert acc t (I t))
        (dictInsert init t (I t)) = tagFold I (dictInsert init t (I t)) rest from rfl]
    by_cases h : tag = t
    · subst h
      rw [tagFold_lookup_notmem I rest tag hnd.1 _, alistLookup_dictInsert, if_pos rfl]
    · have : tag ∈ rest := by
        rcases List.mem_cons.mp htag with h' | h'
        · exact absurd h' h
        · exact h'
      exact ih hnd.2 this _

theorem tagsLoop_spec (mux : Multiplexer) (sanitize : String → String)
    (mapping : List (String × List String)) :
    ∀ res : List (String × List (String × TagInfo)),
    (mapping.map Prod.fst).Nodup →
    (∀ p ∈ mapping, ∃ v, alistLookup res p.1 = some v) →
    ∃ m, tagsLoop mux sanitize res mapping = some m ∧
      (∀ r, (∀ p ∈ mapping, p.1 ≠ r) → alistLookup m r = alistLookup res r) ∧
      (∀ p ∈ mapping, ∀ v, alistLookup res p.1 = some v →
        alistLookup m p.1 =
          some (tagFold (tagInfoFor mux sanitize p.1) v p.2)) := by
  induction mapping with
  | nil =>
    intro res _ _
    exact ⟨res, rfl, fun r _ => rfl, by simp⟩
  | cons hd rest ih =>
    intro res hnd hdom
    obtain ⟨run, tags⟩ := hd
    rw [List.map_cons, List.nodup_cons] at hnd
    obtain ⟨inner, hinner⟩ := hdom (run, tags) (List.mem_cons_self _ _)
    have hstep : tagsLoop mux sanitize res ((run, tags) :: rest) =
        tagsLoop mux sanitize
          (dictInsert res run (tagFold (tagInfoFor mux sanitize run) inner tags))
          rest := by
      rw [tagsLoop, hinner]
      rfl
    obtain ⟨m, hm, hA, hB⟩ := ih
      (dictInsert res run (tagFold (tagInfoFor mux sanitize run) inner tags))
      hnd.2
      (by
        intro p hp
        have hne : run ≠ p.1 := by
          intro hc
          exact hnd.1 (List.mem_map.mpr ⟨p, hp, hc.symm⟩)
        rw [alistLookup_dictInsert, if_neg hne]
        exact hdom p (List.mem_cons_of_mem _ hp))
    refine ⟨m, by rw [hstep]; exact hm, ?_, ?_⟩
    · intro r hr
      have hrun : run ≠ r := hr (run, tags) (List.mem_cons_self _ _)
      rw [hA r (fun p hp => hr p (List.mem_cons_of_mem _ hp)),
        alistLookup_dictInsert, if_neg hrun]
    · intro p hp v hv
      rcases List.mem_cons.mp hp with h' | h'
      · have hp1 : p.1 = run := by rw [h']
        have hv' : v = inner := by
          rw [h'] at hv
          rw [hinner] at hv
          exact (Option.some.inj hv).symm
        have hnotin : ∀ q ∈ rest, q.1 ≠ p.1 := by
          intro q hq hc
          exact hnd.1 (List.mem_map.mpr ⟨q, hq, by rw [hc, hp1]⟩)
        rw [hA p.1 hnotin, alistLookup_dictInsert, if_pos (by rw [hp1]),
          hv', h']
      · have hne : run ≠ p.1 := by
          intro hc
          exact hnd.1 (List.mem_map.mpr ⟨p, h', hc.symm⟩)
        apply hB p h'
        rw [alistLookup_dictInsert, if_neg hne]
        exact hv

theorem alistLookup_const_map (l : List String) (r : String) (hr : r ∈ l) :
    alistLookup (l.map (fun run => (run, ([] : List (String × TagInfo))))) r =
      some [] := by
  induction l with
  | nil => simp at hr
  | cons a rest ih =>
    rw [List.map_cons, alistLookup]
    by_cases h : a = r
    · rw [if_pos h]
    · rw [if_neg h]
      exact ih (by rcases List.mem_cons.mp hr with h' | h'; exact absurd h'.symm h; exact h')

/-- C8: `tags_impl` returns a mapping with an entry for every run known
to the store; a run none of whose plugin-mapping entries carries tags is
mapped to the empty tag mapping; and every `(run, tag)` carrying this
plugin's data is mapped to the tag's display name together with its
sanitized description.  (Hypotheses: the plugin mapping is a dict — keys
duplicate-free, per-run tag dicts duplicate-free — over known runs.) -/
theorem C8_tags_catalog (mux : Multiplexer) (sanitize : String → String)
    (hkeys : (mux.pluginMapping.map Prod.fst).Nodup)
    (htags : ∀ p ∈ mux.pluginMapping, p.2.Nodup)
    (hsub : ∀ p ∈ mux.pluginMapping, p.1 ∈ mux.runsList) :
    ∃ m, tags_impl mux sanitize = some m ∧
      (∀ run ∈ mux.runsList, ∃ tm, alistLookup m run = some tm) ∧
      (∀ run ∈ mux.runsList, (∀ p ∈ mux.pluginMapping, p.1 = run → p.2 = []) →
        alistLookup m run = some []) ∧
      (∀ p ∈ mux.pluginMapping, ∀ tag ∈ p.2,
        ∃ tm, alistLookup m p.1 = some tm ∧
          alistLookup tm tag = some (tagInfoFor mux sanitize p.1 tag)) := by
  obtain ⟨m, hm, hA, hB⟩ := tagsLoop_spec mux sanitize mux.pluginMapping
    (mux.runsList.map (fun run => (run, [])))
    hkeys
    (fun p hp => ⟨[], alistLookup_const_map _ _ (hsub p hp)⟩)
  refine ⟨m, hm, ?_, ?_, ?_⟩
  · intro run hrun
    by_cases h : ∀ p ∈ mux.pluginMapping, p.1 ≠ run
    · exact ⟨[], by rw [hA run h]; exact alistLookup_const_map _ _ hrun⟩
    · push_neg at h
      obtain ⟨p, hp, hpr⟩ := h
      refine ⟨tagFold (tagInfoFor mux sanitize p.1) [] p.2, ?_⟩
      rw [← hpr]
      exact hB p hp [] (alistLookup_const_map _ _ (hsub p hp))
  · intro run hrun hempty
    by_cases h : ∀ p ∈ mux.pluginMapping, p.1 ≠ run
    · rw [hA run h]
      exact alistLookup_const_map _ _ hrun
    · push_neg at h
      obtain ⟨p, hp, hpr⟩ := h
      have h2 : p.2 = [] := hempty p hp hpr
      have := hB p hp [] (alistLookup_const_map _ _ (hsub p hp))
      rw [hpr] at this
      rw [this, h2]
      rfl
  · intro p hp tag htag
    refine ⟨tagFold (tagInfoFor mux sanitize p.1) [] p.2,
      hB p hp [] (alistLookup_const_map _ _ (hsub p hp)), ?_⟩
    exact tagFold_lookup_mem _ _ (htags p hp) _ htag _

/-- A store knowing runs "A" and "B" where only "A" carries one tagged
stream "t1" of this plugin's data. -/
def muxTags : Multiplexer :=
  { runsList := ["A", "B"]
    tensors := fun _ _ => none
    numThresholds := fun _ _ => 1
    pluginMapping := [("A", ["t1"])]
    summaryMetadata := fun run tag =>
      { display_name := run ++ "/" ++ tag, summary_description := "desc" } }

/-- A stand-in for `markdown_to_safe_html`, used in the C8 witness. -/
def exampleSanitize (s : String) : String :=
  "<p>" ++ s ++ "</p>"

/-- Witness for C8: "A" carries tag "t1", "B" carries nothing. -/
theorem C8_tags_catalog_witness :
    ((muxTags.pluginMapping.map Prod.fst).Nodup ∧
     (∀ p ∈ muxTags.pluginMapping, p.2.Nodup) ∧
     (∀ p ∈ muxTags.pluginMapping, p.1 ∈ muxTags.runsList)) ∧
    (∃ m, tags_impl muxTags exampleSanitize = some m ∧
      (∀ run ∈ muxTags.runsList, ∃ tm, alistLookup m run = some tm) ∧
      (∀ run ∈ muxTags.runsList,
        (∀ p ∈ muxTags.pluginMapping, p.1 = run → p.2 = []) →
        alistLookup m run = some []) ∧
      (∀ p ∈ muxTags.pluginMapping, ∀ tag ∈ p.2,
        ∃ tm, alistLookup m p.1 = some tm ∧
          alistLookup tm tag = some (tagInfoFor muxTags exampleSanitize p.1 tag))) :=
  ⟨⟨by simp [muxTags], by simp [muxTags], by simp [muxTags]⟩,
   C8_tags_catalog muxTags exampleSanitize (by simp [muxTags])
     (by simp [muxTags]) (by simp [muxTags])⟩
